import Mathlib

/-
  Shallow embedding of the snowglobe particle solver (src/verlet_object.rs).

  Modelling decisions:
  * f32 scalars are modelled by ℝ; 2D vectors (cgmath::Vector2<f32>) by ℝ × ℝ with
    the componentwise Prod instances (addition, subtraction, scalar multiplication).
  * `Vec<VerletObject>` is modelled by `List VerletObject`; rayon's par_iter_mut
    for_each over independent elements is a pure `List.map`.
  * The u8/u32 saturating casts of Rust (`as u8`, `as u32`) and the f32 `%`
    (truncated remainder, sign of the dividend) are modelled explicitly below.
  * `HashMap<(i32,i32), Vec<i32>>` has unspecified iteration order in the source;
    the association-list model fixes first-insertion order.  None of the proved
    statements depend on this order.
  * For the two claims about IEEE NaN production, a separate NaN-aware scalar
    `FR := Option ℝ` (none = NaN) is used; see the section at `FR` below.
-/

/-- Mirror of `struct VerletObject` (src/verlet_object.rs). `col` is a triple of u8,
modelled as natural numbers produced by the saturating cast. -/
@[ext]
structure VerletObject where
  position_current : ℝ × ℝ
  position_old : ℝ × ℝ
  acceleration : ℝ × ℝ
  radius : ℝ
  col : ℕ × ℕ × ℕ


instance : Inhabited VerletObject :=
  ⟨⟨(0, 0), (0, 0), (0, 0), 0, (0, 0, 0)⟩⟩

/-- cgmath `InnerSpace::magnitude` on Vector2: sqrt of the dot product with itself. -/
noncomputable def magnitude (v : ℝ × ℝ) : ℝ :=
  Real.sqrt (v.1 * v.1 + v.2 * v.2)

/-- Rust f32 truncation toward zero (used by the float `%` operator). -/
noncomputable def rustTrunc (x : ℝ) : ℤ :=
  if 0 ≤ x then ⌊x⌋ else ⌈x⌉

/-- Rust f32 `%`: truncated remainder, `a - b * trunc (a / b)` (sign of the dividend). -/
noncomputable def rustRem (a b : ℝ) : ℝ :=
  a - b * (rustTrunc (a / b) : ℝ)

/-- Rust `as u32` saturating cast from f32 (negative values clamp to 0). -/
noncomputable def castU32 (x : ℝ) : ℕ :=
  if x ≤ 0 then 0 else min (rustTrunc x).toNat (2 ^ 32 - 1)

/-- Rust `as u8` saturating cast from f32 (negative values clamp to 0, large to 255). -/
noncomputable def castU8 (x : ℝ) : ℕ :=
  if x ≤ 0 then 0 else min (rustTrunc x).toNat 255

/-- Mirror of `fn hue_to_rgb` (src/verlet_object.rs). -/
noncomputable def hue_to_rgb (hue : ℝ) : ℕ × ℕ × ℕ :=
  let h := rustRem hue 360 / 60
  let c : ℝ := 1
  let x := 1 - |rustRem h 2 - 1|
  let rgb : ℝ × ℝ × ℝ :=
    match castU32 h with
    | 0 => (c, x, 0)
    | 1 => (x, c, 0)
    | 2 => (0, c, x)
    | 3 => (0, x, c)
    | 4 => (x, 0, c)
    | _ => (c, 0, x)
  (castU8 (rgb.1 * 255), castU8 (rgb.2.1 * 255), castU8 (rgb.2.2 * 255))

/-- Mirror of `VerletObject::update_position`.  The source writes
`self.acceleration * dt * dt`, i.e. the acceleration vector scaled by dt twice. -/
noncomputable def VerletObject.update_position (p : VerletObject) (dt : ℝ) : VerletObject :=
  let velocity : ℝ × ℝ := p.position_current - p.position_old
  { position_current := p.position_current + velocity + dt • dt • p.acceleration
    position_old := p.position_current
    acceleration := (0, 0)
    radius := p.radius
    col := hue_to_rgb (240 - magnitude velocity / 3 * 240) }

/-- Mirror of `VerletObject::accelerate`. -/
def VerletObject.accelerate (p : VerletObject) (acc : ℝ × ℝ) : VerletObject :=
  { p with acceleration := p.acceleration + acc }

/-- Mirror of `struct Solver` (src/verlet_object.rs); width/height/substeps are i32. -/
structure Solver where
  gravity : ℝ × ℝ
  width : ℤ
  height : ℤ
  substeps : ℤ


/-- Mirror of `Solver::new`: it stores the four parameters verbatim, with no
validation of any kind. -/
def Solver.new (gravity : ℝ × ℝ) (width height substeps : ℤ) : Solver :=
  { gravity := gravity, width := width, height := height, substeps := substeps }

/-- Mirror of `Solver::apply_arbituary_force`: adds the force vector to every
particle's position_current (rayon for_each = elementwise map). -/
def Solver.apply_arbituary_force (s : Solver) (particles : List VerletObject)
    (force_vector : ℝ × ℝ) : List VerletObject :=
  particles.map fun p => { p with position_current := p.position_current + force_vector }

/-- Mirror of `Solver::apply_gravity`: accelerate every particle by the gravity vector. -/
def Solver.apply_gravity (s : Solver) (particles : List VerletObject) : List VerletObject :=
  particles.map fun p => p.accelerate s.gravity

/-- Mirror of `Solver::update_positions`. -/
noncomputable def Solver.update_positions (s : Solver) (particles : List VerletObject)
    (dt : ℝ) : List VerletObject :=
  particles.map fun p => p.update_position dt

/-- The literal `0.3` of `apply_constraint` (`let restitution = 0.3`). -/
noncomputable def restitution : ℝ := 0.3

/-- The literal `1.0` of `apply_constraint` (`let friction = 1.0`). -/
noncomputable def friction : ℝ := 1.0

/-- Per-particle body of the `apply_constraint` closure.  The source mutates
`pos`, `v` and the two hit flags sequentially; each mutation becomes a new `let`.
Note the second x-check reads the value of `pos.x` left by the first one (and
likewise on y), exactly as in the source. -/
noncomputable def constrainParticle (w h : ℤ) (p : VerletObject) : VerletObject :=
  let wr : ℝ := (w : ℝ)
  let hr : ℝ := (h : ℝ)
  let px0 := p.position_current.1
  let py0 := p.position_current.2
  let vx0 := px0 - p.position_old.1
  let vy0 := py0 - p.position_old.2
  let px1 := if px0 > wr - p.radius then wr - p.radius else px0
  let vx1 := if px0 > wr - p.radius then -vx0 * restitution else vx0
  let hx1 : Bool := if px0 > wr - p.radius then true else false
  let px2 := if px1 < p.radius then p.radius else px1
  let vx2 := if px1 < p.radius then -vx1 * restitution else vx1
  let hx2 : Bool := if px1 < p.radius then true else hx1
  let vy1 := if hx2 then vy0 * friction else vy0
  let py1 := if py0 > hr - p.radius then hr - p.radius else py0
  let vy2 := if py0 > hr - p.radius then -vy1 * restitution else vy1
  let hy1 : Bool := if py0 > hr - p.radius then true else false
  let py2 := if py1 < p.radius then p.radius else py1
  let vy3 := if py1 < p.radius then -vy2 * restitution else vy2
  let hy2 : Bool := if py1 < p.radius then true else hy1
  let vx3 := if hy2 then vx2 * friction else vx2
  { p with
    position_current := (px2, py2)
    position_old := (px2 - vx3, py2 - vy3) }

/-- Mirror of `Solver::apply_constraint` (elementwise over the particle list). -/
noncomputable def Solver.apply_constraint (s : Solver) (particles : List VerletObject) :
    List VerletObject :=
  particles.map fun p => constrainParticle s.width s.height p

/-- Mirror of `Solver::solve_collision` on a pair of particles; `axis / dist` is
scalar division of a vector, modelled as `dist⁻¹ • axis`. -/
noncomputable def solve_collision (a b : VerletObject) : VerletObject × VerletObject :=
  let axis : ℝ × ℝ := a.position_current - b.position_current
  let dist := magnitude axis
  if dist < a.radius + b.radius then
    let n : ℝ × ℝ := dist⁻¹ • axis
    let delta := a.radius + b.radius - dist
    ({ a with position_current := a.position_current + (0.5 * delta) • n },
     { b with position_current := b.position_current - (0.5 * delta) • n })
  else (a, b)

/-- Bucket insertion step of `compute_spatial_map`: push the index onto the
existing cell bucket, or create a fresh bucket for a new cell. -/
def insertIdx (grid : List ((ℤ × ℤ) × List ℕ)) (key : ℤ × ℤ) (i : ℕ) :
    List ((ℤ × ℤ) × List ℕ) :=
  match grid with
  | [] => [(key, [i])]
  | e :: rest => if e.1 = key then (e.1, e.2 ++ [i]) :: rest else e :: insertIdx rest key i

/-- Grid cell of a particle: `(⌊x / density⌋, ⌊y / density⌋)` with the f32
division and `floor()` then `as i32` of the source. -/
noncomputable def cellOf (p : VerletObject) (density : ℕ) : ℤ × ℤ :=
  (⌊p.position_current.1 / (density : ℝ)⌋, ⌊p.position_current.2 / (density : ℝ)⌋)

/-- Mirror of `Solver::compute_spatial_map`: every particle index, in order, is
appended to the bucket of its cell.  (The source's HashMap has no observable
entry order; the model lists entries in first-insertion order.) -/
noncomputable def compute_spatial_map (particles : List VerletObject) (density : ℕ) :
    List ((ℤ × ℤ) × List ℕ) :=
  (List.range particles.length).foldl
    (fun grid i => insertIdx grid (cellOf (particles.getD i default) density) i) []

/-- Association-list lookup, modelling `grid.get(&(nx, ny))`. -/
def lookupCell (grid : List ((ℤ × ℤ) × List ℕ)) (key : ℤ × ℤ) : Option (List ℕ) :=
  match grid with
  | [] => none
  | e :: rest => if e.1 = key then some e.2 else lookupCell rest key

/-- One narrow-phase call on indices `i ≠ j`: the split_at_mut gymnastics of
`check_cells_collisions` amount to `solve_collision(particles[p1], particles[p2])`
with both results written back. -/
noncomputable def solveCollisionAt (particles : List VerletObject) (i j : ℕ) :
    List VerletObject :=
  let r := solve_collision (particles.getD i default) (particles.getD j default)
  (particles.set i r.1).set j r.2

/-- Mirror of `Solver::check_cells_collisions`: the cross product of the two
index buckets, skipping equal indices. -/
noncomputable def check_cells_collisions (particles : List VerletObject)
    (cell_1 cell_2 : List ℕ) : List VerletObject :=
  cell_1.foldl
    (fun acc p1 =>
      cell_2.foldl (fun acc2 p2 => if p1 = p2 then acc2 else solveCollisionAt acc2 p1 p2) acc)
    particles

/-- Mirror of `Solver::find_colllisions` (sic): for every grid entry, walk the
dx/dy stencil, skip the half `dx < 0 || (dx == 0 && dy < 0)`, and only look up
neighbors with `nx >= 0 && ny >= 0`.  The grid is computed once, up front, from
the incoming positions. -/
noncomputable def find_colllisions (particles : List VerletObject) (density : ℕ) :
    List VerletObject :=
  let grid := compute_spatial_map particles density
  grid.foldl
    (fun acc e =>
      (([-1, 0, 1] : List ℤ).foldl
        (fun acc2 dx =>
          (([-1, 0, 1] : List ℤ).foldl
            (fun acc3 dy =>
              if dx < 0 ∨ (dx = 0 ∧ dy < 0) then acc3
              else
                let nx := e.1.1 + dx
                let ny := e.1.2 + dy
                if 0 ≤ nx ∧ 0 ≤ ny then
                  match lookupCell grid (nx, ny) with
                  | some neighbor => check_cells_collisions acc3 e.2 neighbor
                  | none => acc3
                else acc3)
            acc2))
        acc))
    particles

/-- One iteration of the `for _ in 0..self.substeps` loop of `Solver::update`. -/
noncomputable def Solver.substep (s : Solver) (particles : List VerletObject) (dt : ℝ)
    (density : ℕ) : List VerletObject :=
  s.apply_constraint
    (find_colllisions (s.update_positions (s.apply_gravity particles) (dt / (s.substeps : ℝ)))
      density)

/-- Mirror of `Solver::update`: `substeps` iterations of gravity, integration
with `dt / substeps`, collision finding, constraint enforcement.  A Rust range
`0..n` with `n <= 0` is empty, hence the `Int.toNat`. -/
noncomputable def Solver.update (s : Solver) (particles : List VerletObject) (dt : ℝ)
    (density : ℕ) : List VerletObject :=
  (List.range s.substeps.toNat).foldl (fun acc _ => s.substep acc dt density) particles

/-- Broad-phase visit count contributed by one occupied source cell `src` toward
the occupied target cell `tgt`: the dx/dy double loop of `find_colllisions` with
its half-stencil skip and its `nx >= 0 && ny >= 0` guard, counting the
iterations in which the neighbor looked up is exactly `tgt`. -/
def stencilVisitsFrom (src tgt : ℤ × ℤ) : ℕ :=
  ([-1, 0, 1] : List ℤ).foldl
    (fun n dx =>
      ([-1, 0, 1] : List ℤ).foldl
        (fun m dy =>
          if dx < 0 ∨ (dx = 0 ∧ dy < 0) then m
          else if 0 ≤ src.1 + dx ∧ 0 ≤ src.2 + dy ∧ (src.1 + dx, src.2 + dy) = tgt then m + 1
          else m)
        n)
    0

/-- Total number of times one `find_colllisions` call visits the unordered pair
of occupied cells `{a, b}` (each occupied cell is iterated exactly once by the
outer loop over the grid). -/
def cellPairVisits (a b : ℤ × ℤ) : ℕ :=
  if a = b then stencilVisitsFrom a a else stencilVisitsFrom a b + stencilVisitsFrom b a

/-- Number of narrow-phase tests `check_cells_collisions` submits for the
unordered particle-index pair `{i, j}` when called on buckets `cell_1, cell_2`:
the double loop with its `p1 == p2` skip, counting iterations that reach
`solve_collision` on `{i, j}` in either order. -/
def cellPairTests (cell_1 cell_2 : List ℕ) (i j : ℕ) : ℕ :=
  cell_1.foldl
    (fun n p1 =>
      cell_2.foldl
        (fun m p2 =>
          if p1 = p2 then m
          else if (p1 = i ∧ p2 = j) ∨ (p1 = j ∧ p2 = i) then m + 1 else m)
        n)
    0

/-- NaN-aware scalar for the two claims about IEEE division by zero: `none` is
NaN, `some a` a finite value.  (Infinities never arise in the modelled code
paths: the only zero divisor is a vector magnitude, and a zero magnitude forces
the dividend components to zero, so the division is 0/0 = NaN.) -/
def FR := Option ℝ

/-- NaN-propagating addition. -/
def fadd : FR → FR → FR
  | some a, some b => some (a + b)
  | _, _ => none

/-- NaN-propagating subtraction. -/
def fsub : FR → FR → FR
  | some a, some b => some (a - b)
  | _, _ => none

/-- NaN-propagating multiplication. -/
def fmul : FR → FR → FR
  | some a, some b => some (a * b)
  | _, _ => none

/-- NaN-propagating division; a zero divisor yields NaN (the modelled code only
ever divides by a magnitude that is zero exactly when the dividend is zero). -/
noncomputable def fdiv : FR → FR → FR
  | some a, some b => if b = 0 then none else some (a / b)
  | _, _ => none

/-- Square root; NaN on NaN or negative input. -/
noncomputable def fsqrt : FR → FR
  | some a => if a < 0 then none else some (Real.sqrt a)
  | none => none

/-- cgmath magnitude over the NaN-aware scalar. -/
noncomputable def fmag (v : FR × FR) : FR :=
  fsqrt (fadd (fmul v.1 v.1) (fmul v.2 v.2))

/-- f32::abs over the NaN-aware scalar. -/
def fabs : FR → FR
  | some a => some |a|
  | none => none

/-- IEEE `<`: false whenever either side is NaN. -/
def flt : FR → FR → Prop
  | some a, some b => a < b
  | some _, none => False
  | none, _ => False

noncomputable instance (x y : FR) : Decidable (flt x y) :=
  match x, y with
  | some a, some b => (inferInstance : Decidable (a < b))
  | some _, none => isFalse fun h => h
  | none, some _ => isFalse fun h => h
  | none, none => isFalse fun h => h

/-- NaN-aware particle fragment: `solve_collision` and the
`apply_point_arbituary_force` closure read and write only `position_current`
and read `radius`. -/
structure FObj where
  position_current : FR × FR
  radius : FR

/-- Mirror of `Solver::solve_collision` over the NaN-aware scalar, field by
field: axis, magnitude, overlap test, normal `axis / dist`, half-delta update. -/
noncomputable def solveCollisionF (a b : FObj) : FObj × FObj :=
  let axis : FR × FR :=
    (fsub a.position_current.1 b.position_current.1,
     fsub a.position_current.2 b.position_current.2)
  let dist := fmag axis
  if flt dist (fadd a.radius b.radius) then
    let n : FR × FR := (fdiv axis.1 dist, fdiv axis.2 dist)
    let delta := fsub (fadd a.radius b.radius) dist
    ({ a with position_current :=
        (fadd a.position_current.1 (fmul (fmul (some 0.5) delta) n.1),
         fadd a.position_current.2 (fmul (fmul (some 0.5) delta) n.2)) },
     { b with position_current :=
        (fsub b.position_current.1 (fmul (fmul (some 0.5) delta) n.1),
         fsub b.position_current.2 (fmul (fmul (some 0.5) delta) n.2)) })
  else (a, b)

/-- Per-particle body of the `apply_point_arbituary_force` closure over the
NaN-aware scalar: if `|p - position| < |fall_off|`, displace the particle by
`dist / dist.magnitude()` outward (`fall_off > 0`) or inward (else branch). -/
noncomputable def applyPointForceF (p : FObj) (position : FR × FR) (fall_off : FR) : FObj :=
  let dist : FR × FR :=
    (fsub p.position_current.1 position.1, fsub p.position_current.2 position.2)
  if flt (fmag dist) (fabs fall_off) then
    if flt (some 0) fall_off then
      { p with position_current :=
          (fadd p.position_current.1 (fdiv dist.1 (fmag dist)),
           fadd p.position_current.2 (fdiv dist.2 (fmag dist))) }
    else
      { p with position_current :=
          (fsub p.position_current.1 (fdiv dist.1 (fmag dist)),
           fsub p.position_current.2 (fdiv dist.2 (fmag dist))) }
  else p

/-- C4: `update_position(dt)` sets `position_old` to the pre-call
`position_current`, sets `position_current` to
`position_current + (position_current - position_old) + acceleration * dt^2`
(all pre-call values), and leaves `acceleration` equal to zero on return. -/
theorem update_position_verlet_step (p : VerletObject) (dt : ℝ) :
    (p.update_position dt).position_old = p.position_current ∧
    (p.update_position dt).position_current =
      p.position_current + (p.position_current - p.position_old) + dt ^ 2 • p.acceleration ∧
    (p.update_position dt).acceleration = (0, 0) := by
  refine ⟨rfl, ?_, rfl⟩
  simp only [VerletObject.update_position, smul_smul, ← pow_two]

/-- C9: `apply_arbituary_force(v)` adds exactly `v` to every particle's
`position_current` and leaves every particle's `position_old` unchanged. -/
theorem apply_arbituary_force_uniform_shift (s : Solver) (particles : List VerletObject)
    (v : ℝ × ℝ) :
    (s.apply_arbituary_force particles v).map (fun p => p.position_current) =
      particles.map (fun p => p.position_current + v) ∧
    (s.apply_arbituary_force particles v).map (fun p => p.position_old) =
      particles.map (fun p => p.position_old) := by
  constructor <;> simp [Solver.apply_arbituary_force, List.map_map, Function.comp]

/-- C7 counterexample: a Solver with sub-step count 0 and negative domain
dimensions is constructed without any failure — `Solver::new` silently accepts
and stores the invalid configuration, contradicting the claim that it fails
fast at construction time. -/
theorem solver_new_accepts_invalid_config :
    (Solver.new (0, 0) (-5) (-7) 0).substeps = 0 ∧
    (Solver.new (0, 0) (-5) (-7) 0).width = -5 ∧
    (Solver.new (0, 0) (-5) (-7) 0).height = -7 :=
  ⟨rfl, rfl, rfl⟩

/-- C7 amended: `Solver::new` performs no validation at all — every
configuration, including zero sub-steps and negative domain dimensions, is
accepted and stored verbatim. -/
theorem solver_new_stores_verbatim (g : ℝ × ℝ) (w h n : ℤ) :
    Solver.new g w h n =
      { gravity := g, width := w, height := h, substeps := n } :=
  rfl

/-- C10: when `substeps` is zero or negative, `Solver::update` performs zero
sub-step iterations (the Rust range `0..substeps` is empty) and returns with
the entire particle list unchanged. -/
theorem update_nonpos_substeps_id (s : Solver) (particles : List VerletObject)
    (dt : ℝ) (density : ℕ) (h : s.substeps ≤ 0) :
    s.update particles dt density = particles := by
  simp [Solver.update, Int.toNat_of_nonpos h]

/-- C10 witness: a Solver constructed with zero sub-steps leaves a concrete
particle list untouched by `update`. -/
theorem update_nonpos_substeps_id_witness :
    (Solver.new (0, 0) 800 800 0).update
        [⟨(1, 2), (3, 4), (5, 6), 7, (8, 9, 10)⟩] 1 10 =
      [⟨(1, 2), (3, 4), (5, 6), 7, (8, 9, 10)⟩] :=
  update_nonpos_substeps_id (Solver.new (0, 0) 800 800 0)
    [⟨(1, 2), (3, 4), (5, 6), 7, (8, 9, 10)⟩] 1 10 (by decide)

/-- Helper: a single source cell contributes a visit toward an occupied
nonnegative target exactly when the offset from source to target is one of the
five surviving half-stencil directions. -/
lemma stencilVisitsFrom_char (s1 s2 t1 t2 : ℤ) (ht1 : 0 ≤ t1) (ht2 : 0 ≤ t2) :
    stencilVisitsFrom (s1, s2) (t1, t2) =
      if (t1 - s1 = 0 ∧ t2 - s2 = 0) ∨ (t1 - s1 = 0 ∧ t2 - s2 = 1) ∨
         (t1 - s1 = 1 ∧ t2 - s2 = -1) ∨ (t1 - s1 = 1 ∧ t2 - s2 = 0) ∨
         (t1 - s1 = 1 ∧ t2 - s2 = 1) then 1 else 0 := by
  simp only [stencilVisitsFrom, List.foldl, Prod.mk.injEq]
  norm_num
  split_ifs <;> omega

/-- C1 counterexample: the occupied cells `(-1,-1)` and `(-1,0)` are adjacent
(they differ by 1 on the y axis only), yet one `find_colllisions` call visits
this unordered pair of cells zero times — the `nx >= 0 && ny >= 0` guard drops
every stencil target with a negative coordinate — so a particle pair spanning
them is never submitted to a narrow-phase test; moreover two distinct particles
sharing one bucket are submitted twice (once in each order), not once. -/
theorem half_stencil_counterexample :
    cellPairVisits (-1, -1) (-1, 0) = 0 ∧ cellPairTests [0, 1] [0, 1] 0 1 = 2 := by
  decide

/-- C1 amended: for cells with nonnegative coordinates the half-stencil does
visit each unordered pair of identical-or-adjacent occupied cells exactly once;
a particle pair split across two such distinct cells is submitted to exactly one
narrow-phase test per visit, but a particle pair sharing one cell is submitted
twice — and pairs whose stencil target has a negative coordinate are dropped
entirely (see the counterexample). -/
theorem half_stencil_amended :
    (∀ a1 a2 b1 b2 : ℤ, 0 ≤ a1 → 0 ≤ a2 → 0 ≤ b1 → 0 ≤ b2 →
      (a1, a2) ≠ (b1, b2) → a1 - b1 ≤ 1 → b1 - a1 ≤ 1 → a2 - b2 ≤ 1 → b2 - a2 ≤ 1 →
      cellPairVisits (a1, a2) (b1, b2) = 1) ∧
    (∀ a1 a2 : ℤ, 0 ≤ a1 → 0 ≤ a2 → cellPairVisits (a1, a2) (a1, a2) = 1) ∧
    (∀ i j : ℕ, i ≠ j → cellPairTests [i] [j] i j = 1 ∧ cellPairTests [i, j] [i, j] i j = 2) := by
  refine ⟨?_, ?_, ?_⟩
  · intro a1 a2 b1 b2 ha1 ha2 hb1 hb2 hne h1 h2 h3 h4
    simp only [ne_eq, Prod.mk.injEq, not_and] at hne
    rw [cellPairVisits,
      if_neg (by simp only [ne_eq, Prod.mk.injEq]; intro h; exact hne h.1 h.2),
      stencilVisitsFrom_char a1 a2 b1 b2 hb1 hb2,
      stencilVisitsFrom_char b1 b2 a1 a2 ha1 ha2]
    split_ifs <;> omega
  · intro a1 a2 ha1 ha2
    rw [cellPairVisits, if_pos rfl, stencilVisitsFrom_char a1 a2 a1 a2 ha1 ha2]
    split_ifs <;> omega
  · intro i j hne
    constructor <;>
      simp [cellPairTests, List.foldl, hne, Ne.symm hne]

/-- C1 amended witness: concrete instances of all three parts — the adjacent
nonnegative pair (0,0)/(1,1) is visited once, the self pair (2,3) once, and the
particle-index pair {4, 7} is tested once across cells, twice within a cell. -/
theorem half_stencil_amended_witness :
    cellPairVisits (0, 0) (1, 1) = 1 ∧ cellPairVisits (2, 3) (2, 3) = 1 ∧
      cellPairTests [4] [7] 4 7 = 1 ∧ cellPairTests [4, 7] [4, 7] 4 7 = 2 :=
  ⟨half_stencil_amended.1 0 0 1 1 (by decide) (by decide) (by decide) (by decide) (by decide)
      (by decide) (by decide) (by decide) (by decide),
    half_stencil_amended.2.1 2 3 (by decide) (by decide),
    (half_stencil_amended.2.2 4 7 (by decide)).1,
    (half_stencil_amended.2.2 4 7 (by decide)).2⟩

/-- C2 (code bug): `solve_collision` has no zero-distance guard.  Two distinct
particles with coincident centers (positive radii) fall into the overlap branch
(`0 < r_a + r_b`), the normal is computed as `axis / dist` with `dist = 0`, the
IEEE result of each `0.0 / 0.0` is NaN, and the NaN is written into both
particles' `position_current` — the pair is neither skipped nor given an
epsilon distance. -/
theorem solve_collision_coincident_writes_nan :
    (solveCollisionF ⟨(some 5, some 5), some 1⟩ ⟨(some 5, some 5), some 1⟩).1.position_current
        = (none, none) ∧
      (solveCollisionF ⟨(some 5, some 5), some 1⟩ ⟨(some 5, some 5), some 1⟩).2.position_current
        = (none, none) := by
  constructor <;>
    simp [solveCollisionF, fsub, fmag, fsqrt, fadd, fmul, fdiv, flt, Real.sqrt_zero]

/-- C8 (code bug): `apply_point_arbituary_force` has no special case for a
particle exactly at the force center: the falloff test `0 < |fall_off|` passes,
the displacement is `dist / dist.magnitude()` with both zero, and the IEEE
`0.0 / 0.0` NaN is written into the particle's `position_current`. -/
theorem apply_point_force_at_center_writes_nan :
    (applyPointForceF ⟨(some 5, some 5), some 1⟩ (some 5, some 5) (some 10)).position_current
      = (none, none) := by
  simp [applyPointForceF, fsub, fmag, fsqrt, fadd, fmul, fdiv, fabs, flt, Real.sqrt_zero]

/-- Helper: the magnitude of a scaled vector is the scaled magnitude. -/
lemma magnitude_smul (c : ℝ) (v : ℝ × ℝ) : magnitude (c • v) = |c| * magnitude v := by
  simp only [magnitude, Prod.smul_fst, Prod.smul_snd, smul_eq_mul]
  rw [show c * v.1 * (c * v.1) + c * v.2 * (c * v.2) = c ^ 2 * (v.1 * v.1 + v.2 * v.2) by ring,
    Real.sqrt_mul (sq_nonneg c), Real.sqrt_sq_eq_abs]

/-- C3: two equal-radius particles whose centers are a positive distance
`d < 2r` apart are displaced by `(2r - d) / 2` each, in opposite directions
along the unit axis `n` joining the original centers, and end up exactly `2r`
apart.  (The distance must be positive: `d = 0` is the degenerate coincident
case covered separately, in which the code divides by zero.) -/
theorem solve_collision_symmetric (a b : VerletObject) (r d : ℝ) (n : ℝ × ℝ)
    (hra : a.radius = r) (hrb : b.radius = r)
    (hd : d = magnitude (a.position_current - b.position_current))
    (hn : n = d⁻¹ • (a.position_current - b.position_current))
    (hd0 : 0 < d) (hlt : d < 2 * r) :
    (solve_collision a b).1.position_current = a.position_current + ((2 * r - d) / 2) • n ∧
    (solve_collision a b).2.position_current = b.position_current - ((2 * r - d) / 2) • n ∧
    magnitude ((solve_collision a b).1.position_current -
        (solve_collision a b).2.position_current) = 2 * r := by
  have hsum : a.radius + b.radius = 2 * r := by rw [hra, hrb]; ring
  have hcond : magnitude (a.position_current - b.position_current) < a.radius + b.radius := by
    rw [hsum, ← hd]; exact hlt
  have h1 : (solve_collision a b).1.position_current
      = a.position_current +
        (0.5 * (a.radius + b.radius - magnitude (a.position_current - b.position_current))) •
          ((magnitude (a.position_current - b.position_current))⁻¹ •
            (a.position_current - b.position_current)) := by
    simp only [solve_collision, if_pos hcond]
  have h2 : (solve_collision a b).2.position_current
      = b.position_current -
        (0.5 * (a.radius + b.radius - magnitude (a.position_current - b.position_current))) •
          ((magnitude (a.position_current - b.position_current))⁻¹ •
            (a.position_current - b.position_current)) := by
    simp only [solve_collision, if_pos hcond]
  have hdne : d ≠ 0 := ne_of_gt hd0
  have hr0 : 0 < 2 * r := lt_trans hd0 hlt
  refine ⟨?_, ?_, ?_⟩
  · rw [h1, hsum, ← hd, hn]
    congr 1
    rw [smul_smul, smul_smul]
    congr 1
    ring
  · rw [h2, hsum, ← hd, hn]
    congr 1
    rw [smul_smul, smul_smul]
    congr 1
    ring
  · have hdiff : (solve_collision a b).1.position_current -
        (solve_collision a b).2.position_current
        = ((2 * r) / d) • (a.position_current - b.position_current) := by
      rw [h1, h2, hsum, ← hd]
      apply Prod.ext <;>
      · simp only [Prod.smul_fst, Prod.smul_snd, Prod.fst_sub, Prod.snd_sub, Prod.fst_add,
          Prod.snd_add, smul_eq_mul]
        field_simp
        ring
    rw [hdiff, magnitude_smul, ← hd, abs_of_pos (div_pos hr0 hd0), div_mul_cancel₀ _ hdne]

/-- C3 witness: unit-radius particles at (1,0) and (0,0) (distance 1 < 2) are
each pushed half the penetration outward along the x axis and end exactly 2
apart. -/
theorem solve_collision_symmetric_witness :
    (solve_collision ⟨(1, 0), (1, 0), (0, 0), 1, (0, 0, 0)⟩
        ⟨(0, 0), (0, 0), (0, 0), 1, (0, 0, 0)⟩).1.position_current
      = ((1, 0) : ℝ × ℝ) + ((2 * 1 - 1) / 2 : ℝ) • ((1, 0) : ℝ × ℝ) ∧
    (solve_collision ⟨(1, 0), (1, 0), (0, 0), 1, (0, 0, 0)⟩
        ⟨(0, 0), (0, 0), (0, 0), 1, (0, 0, 0)⟩).2.position_current
      = ((0, 0) : ℝ × ℝ) - ((2 * 1 - 1) / 2 : ℝ) • ((1, 0) : ℝ × ℝ) ∧
    magnitude ((solve_collision ⟨(1, 0), (1, 0), (0, 0), 1, (0, 0, 0)⟩
          ⟨(0, 0), (0, 0), (0, 0), 1, (0, 0, 0)⟩).1.position_current -
        (solve_collision ⟨(1, 0), (1, 0), (0, 0), 1, (0, 0, 0)⟩
          ⟨(0, 0), (0, 0), (0, 0), 1, (0, 0, 0)⟩).2.position_current) = 2 * 1 :=
  solve_collision_symmetric
    ⟨(1, 0), (1, 0), (0, 0), 1, (0, 0, 0)⟩ ⟨(0, 0), (0, 0), (0, 0), 1, (0, 0, 0)⟩
    1 1 (1, 0) rfl rfl
    (by norm_num [magnitude, Prod.fst_sub, Prod.snd_sub, Real.sqrt_one])
    (by norm_num) (by norm_num) (by norm_num)

/-- C5: for each wall, a particle past the bound is clamped exactly onto it,
the outward component of the derived velocity `v = position_current -
position_old` is replaced by `-v * 0.3`, the other component is multiplied by
the friction factor `1.0`, and `position_old` is recomputed as the clamped
position minus the adjusted velocity.  The four walls are stated as the four
conjuncts (each with the opposite axis in bounds, so only one wall fires), and
the domain is assumed at least one particle diameter wide and tall. -/
theorem constrain_wall (w h : ℤ) (p : VerletObject)
    (hw : 2 * p.radius ≤ (w : ℝ)) (hh : 2 * p.radius ≤ (h : ℝ)) :
    (p.position_current.1 > (w : ℝ) - p.radius →
      p.radius ≤ p.position_current.2 → p.position_current.2 ≤ (h : ℝ) - p.radius →
      (constrainParticle w h p).position_current =
          ((w : ℝ) - p.radius, p.position_current.2) ∧
        (constrainParticle w h p).position_old =
          ((w : ℝ) - p.radius - -(p.position_current.1 - p.position_old.1) * restitution,
           p.position_current.2 - (p.position_current.2 - p.position_old.2) * friction)) ∧
    (p.position_current.1 < p.radius →
      p.radius ≤ p.position_current.2 → p.position_current.2 ≤ (h : ℝ) - p.radius →
      (constrainParticle w h p).position_current = (p.radius, p.position_current.2) ∧
        (constrainParticle w h p).position_old =
          (p.radius - -(p.position_current.1 - p.position_old.1) * restitution,
           p.position_current.2 - (p.position_current.2 - p.position_old.2) * friction)) ∧
    (p.radius ≤ p.position_current.1 → p.position_current.1 ≤ (w : ℝ) - p.radius →
      p.position_current.2 > (h : ℝ) - p.radius →
      (constrainParticle w h p).position_current =
          (p.position_current.1, (h : ℝ) - p.radius) ∧
        (constrainParticle w h p).position_old =
          (p.position_current.1 - (p.position_current.1 - p.position_old.1) * friction,
           (h : ℝ) - p.radius - -(p.position_current.2 - p.position_old.2) * restitution)) ∧
    (p.radius ≤ p.position_current.1 → p.position_current.1 ≤ (w : ℝ) - p.radius →
      p.position_current.2 < p.radius →
      (constrainParticle w h p).position_current = (p.position_current.1, p.radius) ∧
        (constrainParticle w h p).position_old =
          (p.position_current.1 - (p.position_current.1 - p.position_old.1) * friction,
           p.radius - -(p.position_current.2 - p.position_old.2) * restitution)) := by
  refine ⟨?_, ?_, ?_, ?_⟩ <;>
  · intro h1 h2 h3
    simp only [constrainParticle]
    split_ifs <;>
      first
        | (exfalso; linarith)
        | (simp_all; done)
        | (constructor <;> norm_num [Prod.mk.injEq, friction, restitution] <;> ring_nf)

/-- C5 witness: in a 100 by 100 domain a radius-5 particle at x = 98 moving
right with velocity 8 is clamped to x = 95 and its old position is set to
95 + 8 * 0.3 = 97.4, reflecting the reversed, damped x velocity; y is
untouched. -/
theorem constrain_wall_witness :
    (constrainParticle 100 100 ⟨(98, 50), (90, 50), (0, 0), 5, (0, 0, 0)⟩).position_current
        = (95, 50) ∧
      (constrainParticle 100 100 ⟨(98, 50), (90, 50), (0, 0), 5, (0, 0, 0)⟩).position_old
        = (97.4, 50) := by
  have h := (constrain_wall 100 100 ⟨(98, 50), (90, 50), (0, 0), 5, (0, 0, 0)⟩
      (by norm_num) (by norm_num)).1 (by norm_num) (by norm_num) (by norm_num)
  refine ⟨?_, ?_⟩
  · rw [h.1]
    norm_num
  · rw [h.2]
    norm_num [restitution, friction]

/-- Projection of a particle list onto current positions. -/
noncomputable def positions (ps : List VerletObject) : List (ℝ × ℝ) :=
  ps.map fun p => p.position_current

/-- Every particle is at rest: its previous position equals its current one. -/
def Rest (ps : List VerletObject) : Prop :=
  ∀ p ∈ ps, p.position_old = p.position_current

/-- Every particle is inside the wall rectangle `[r, w-r] x [r, h-r]`. -/
def InBounds (w h : ℤ) (ps : List VerletObject) : Prop :=
  ∀ p ∈ ps,
    p.radius ≤ p.position_current.1 ∧ p.position_current.1 ≤ (w : ℝ) - p.radius ∧
    p.radius ≤ p.position_current.2 ∧ p.position_current.2 ≤ (h : ℝ) - p.radius

/-- No two distinct particles overlap: every center distance is at least the
radius sum. -/
def NoOverlap (ps : List VerletObject) : Prop :=
  ∀ i j, i < ps.length → j < ps.length → i ≠ j →
    (ps.getD i default).radius + (ps.getD j default).radius ≤
      magnitude ((ps.getD i default).position_current - (ps.getD j default).position_current)

lemma set_getD_self {α : Type} (d : α) : ∀ (l : List α) (i : ℕ), l.set i (l.getD i d) = l
  | [], _ => by simp
  | a :: l, 0 => by simp
  | a :: l, i + 1 => by
      rw [List.getD_cons_succ, List.set_cons_succ, set_getD_self d l i]

lemma getD_map_of_lt {α β : Type} (f : α → β) (d : β) (d' : α) :
    ∀ (l : List α) (i : ℕ), i < l.length → (l.map f).getD i d = f (l.getD i d')
  | a :: l, 0, _ => by simp
  | a :: l, i + 1, h => by
      simp only [List.map_cons, List.getD_cons_succ]
      exact getD_map_of_lt f d d' l i (by simpa using h)

lemma getD_mem_of_lt {α : Type} (d : α) :
    ∀ (l : List α) (i : ℕ), i < l.length → l.getD i d ∈ l
  | a :: l, 0, _ => by simp
  | a :: l, i + 1, h => by
      simp only [List.getD_cons_succ]
      exact List.mem_cons_of_mem a (getD_mem_of_lt d l i (by simpa using h))

lemma foldl_fixed {α β : Type} (f : β → α → β) (b : β) :
    ∀ (l : List α), (∀ a ∈ l, f b a = b) → l.foldl f b = b
  | [], _ => rfl
  | a :: l, h => by
      rw [List.foldl_cons, h a (List.mem_cons_self a l)]
      exact foldl_fixed f b l fun x hx => h x (List.mem_cons_of_mem a hx)

lemma solveCollisionAt_id (ps : List VerletObject) (i j : ℕ)
    (h : ¬ magnitude ((ps.getD i default).position_current -
          (ps.getD j default).position_current) <
        (ps.getD i default).radius + (ps.getD j default).radius) :
    solveCollisionAt ps i j = ps := by
  simp only [solveCollisionAt, solve_collision, if_neg h]
  rw [set_getD_self, set_getD_self]

lemma insertIdx_valid (P : ℕ → Prop) (k : ℤ × ℤ) (i : ℕ) (hi : P i) :
    ∀ (g : List ((ℤ × ℤ) × List ℕ)), (∀ e ∈ g, ∀ x ∈ e.2, P x) →
      ∀ e ∈ insertIdx g k i, ∀ x ∈ e.2, P x
  | [], _ => by
      intro e he x hx
      simp only [insertIdx, List.mem_singleton] at he
      subst he
      simp only [List.mem_singleton] at hx
      subst hx
      exact hi
  | a :: g, hg => by
      intro e he x hx
      simp only [insertIdx] at he
      by_cases hk : a.1 = k
      · rw [if_pos hk] at he
        rcases List.mem_cons.mp he with h1 | h2
        · subst h1
          rcases List.mem_append.mp hx with hx1 | hx2
          · exact hg a (List.mem_cons_self a g) x hx1
          · simp only [List.mem_singleton] at hx2
            subst hx2
            exact hi
        · exact hg e (List.mem_cons_of_mem a h2) x hx
      · rw [if_neg hk] at he
        rcases List.mem_cons.mp he with h1 | h2
        · rw [h1] at hx
          exact hg a (List.mem_cons_self a g) x hx
        · exact insertIdx_valid P k i hi g
            (fun e' he' => hg e' (List.mem_cons_of_mem a he')) e h2 x hx

lemma compute_spatial_map_valid (ps : List VerletObject) (density : ℕ) :
    ∀ e ∈ compute_spatial_map ps density, ∀ x ∈ e.2, x < ps.length := by
  have main : ∀ (l : List ℕ) (g : List ((ℤ × ℤ) × List ℕ)),
      (∀ x ∈ l, x < ps.length) → (∀ e ∈ g, ∀ x ∈ e.2, x < ps.length) →
      ∀ e ∈ l.foldl (fun g i => insertIdx g (cellOf (ps.getD i default) density) i) g,
        ∀ x ∈ e.2, x < ps.length := by
    intro l
    induction l with
    | nil => intro g _ hg; exact hg
    | cons a l ih =>
        intro g hl hg
        rw [List.foldl_cons]
        exact ih _ (fun x hx => hl x (List.mem_cons_of_mem a hx))
          (insertIdx_valid (fun x => x < ps.length)
            (cellOf (ps.getD a default) density) a (hl a (List.mem_cons_self a l)) g hg)
  exact main (List.range ps.length) [] (fun x hx => List.mem_range.mp hx) (by simp)

lemma lookupCell_sub (k : ℤ × ℤ) (v : List ℕ) :
    ∀ (g : List ((ℤ × ℤ) × List ℕ)), lookupCell g k = some v → ∃ e ∈ g, e.2 = v
  | [], h => by simp [lookupCell] at h
  | a :: g, h => by
      simp only [lookupCell] at h
      by_cases hk : a.1 = k
      · rw [if_pos hk] at h
        exact ⟨a, List.mem_cons_self a g, Option.some_injective _ h⟩
      · rw [if_neg hk] at h
        obtain ⟨e, he, hv⟩ := lookupCell_sub k v g h
        exact ⟨e, List.mem_cons_of_mem a he, hv⟩

lemma check_cells_collisions_id (ps : List VerletObject) (c1 c2 : List ℕ)
    (h1 : ∀ i ∈ c1, i < ps.length) (h2 : ∀ j ∈ c2, j < ps.length)
    (hno : NoOverlap ps) : check_cells_collisions ps c1 c2 = ps := by
  unfold check_cells_collisions
  apply foldl_fixed
  intro p1 hp1
  apply foldl_fixed
  intro p2 hp2
  by_cases hpe : p1 = p2
  · rw [if_pos hpe]
  · rw [if_neg hpe]
    exact solveCollisionAt_id ps p1 p2
      (not_lt.mpr (hno p1 p2 (h1 p1 hp1) (h2 p2 hp2) hpe))

lemma find_colllisions_id (ps : List VerletObject) (density : ℕ)
    (hno : NoOverlap ps) : find_colllisions ps density = ps := by
  unfold find_colllisions
  apply foldl_fixed
  intro e he
  apply foldl_fixed
  intro dx _
  apply foldl_fixed
  intro dy _
  by_cases hskip : dx < 0 ∨ (dx = 0 ∧ dy < 0)
  · rw [if_pos hskip]
  · rw [if_neg hskip]
    by_cases hpos : 0 ≤ e.1.1 + dx ∧ 0 ≤ e.1.2 + dy
    · rw [if_pos hpos]
      cases hlk : lookupCell (compute_spatial_map ps density) (e.1.1 + dx, e.1.2 + dy) with
      | none => rfl
      | some neighbor =>
          obtain ⟨e', he', hv⟩ := lookupCell_sub _ _ _ hlk
          exact check_cells_collisions_id ps e.2 neighbor
            (compute_spatial_map_valid ps density e he)
            (hv ▸ compute_spatial_map_valid ps density e' he') hno
    · rw [if_neg hpos]

lemma accel_update_pos (g : ℝ × ℝ) (p : VerletObject)
    (hrest : p.position_old = p.position_current) :
    ((p.accelerate g).update_position 0).position_current = p.position_current ∧
    ((p.accelerate g).update_position 0).position_old = p.position_current ∧
    ((p.accelerate g).update_position 0).radius = p.radius := by
  refine ⟨?_, rfl, rfl⟩
  simp [VerletObject.update_position, VerletObject.accelerate, hrest]

lemma constrainParticle_id (w h : ℤ) (p : VerletObject)
    (hb : p.radius ≤ p.position_current.1 ∧ p.position_current.1 ≤ (w : ℝ) - p.radius ∧
          p.radius ≤ p.position_current.2 ∧ p.position_current.2 ≤ (h : ℝ) - p.radius) :
    constrainParticle w h p = p := by
  obtain ⟨b1, b2, b3, b4⟩ := hb
  have c1 : ¬ p.position_current.1 > (w : ℝ) - p.radius := not_lt.mpr b2
  have c2 : ¬ p.position_current.1 < p.radius := not_lt.mpr b1
  have c3 : ¬ p.position_current.2 > (h : ℝ) - p.radius := not_lt.mpr b4
  have c4 : ¬ p.position_current.2 < p.radius := not_lt.mpr b3
  simp only [constrainParticle, if_neg c1, if_neg c2, if_neg c3, if_neg c4]
  apply VerletObject.ext <;> simp

lemma NoOverlap_map (ps : List VerletObject) (f : VerletObject → VerletObject)
    (hpos : ∀ p ∈ ps, (f p).position_current = p.position_current)
    (hrad : ∀ p ∈ ps, (f p).radius = p.radius)
    (hno : NoOverlap ps) : NoOverlap (ps.map f) := by
  intro i j hi hj hij
  rw [List.length_map] at hi hj
  rw [getD_map_of_lt f default default ps i hi, getD_map_of_lt f default default ps j hj,
    hpos _ (getD_mem_of_lt default ps i hi), hrad _ (getD_mem_of_lt default ps i hi),
    hpos _ (getD_mem_of_lt default ps j hj), hrad _ (getD_mem_of_lt default ps j hj)]
  exact hno i j hi hj hij

lemma substep_dt_zero (s : Solver) (ps : List VerletObject) (density : ℕ)
    (hrest : Rest ps) (hb : InBounds s.width s.height ps) (hno : NoOverlap ps) :
    positions (s.substep ps 0 density) = positions ps ∧ Rest (s.substep ps 0 density) ∧
    InBounds s.width s.height (s.substep ps 0 density) ∧ NoOverlap (s.substep ps 0 density) := by
  have hdt : (0 : ℝ) / (s.substeps : ℝ) = 0 := zero_div _
  have hmm : s.update_positions (s.apply_gravity ps) 0 =
      ps.map fun p => (p.accelerate s.gravity).update_position 0 := by
    simp [Solver.update_positions, Solver.apply_gravity, List.map_map, Function.comp]
  have hFpos : ∀ p ∈ ps,
      ((p.accelerate s.gravity).update_position 0).position_current = p.position_current :=
    fun p hp => (accel_update_pos s.gravity p (hrest p hp)).1
  have hFold : ∀ p ∈ ps,
      ((p.accelerate s.gravity).update_position 0).position_old = p.position_current :=
    fun p hp => (accel_update_pos s.gravity p (hrest p hp)).2.1
  have hFrad : ∀ p ∈ ps, ((p.accelerate s.gravity).update_position 0).radius = p.radius :=
    fun p hp => (accel_update_pos s.gravity p (hrest p hp)).2.2
  have hno2 : NoOverlap (ps.map fun p => (p.accelerate s.gravity).update_position 0) :=
    NoOverlap_map ps _ hFpos hFrad hno
  have hconstr : ∀ q ∈ ps.map fun p => (p.accelerate s.gravity).update_position 0,
      constrainParticle s.width s.height q = q := by
    intro q hq
    obtain ⟨p, hp, rfl⟩ := List.mem_map.mp hq
    apply constrainParticle_id
    rw [hFpos p hp, hFrad p hp]
    exact hb p hp
  have hsub : s.substep ps 0 density =
      ps.map fun p => (p.accelerate s.gravity).update_position 0 := by
    simp only [Solver.substep, hdt, hmm,
      find_colllisions_id _ density hno2, Solver.apply_constraint]
    rw [List.map_congr_left hconstr, List.map_id']
  rw [hsub]
  refine ⟨?_, ?_, ?_, hno2⟩
  · simp only [positions, List.map_map]
    exact List.map_congr_left fun p hp => by simp [Function.comp, hFpos p hp]
  · intro q hq
    obtain ⟨p, hp, rfl⟩ := List.mem_map.mp hq
    rw [hFold p hp, hFpos p hp]
  · intro q hq
    obtain ⟨p, hp, rfl⟩ := List.mem_map.mp hq
    rw [hFpos p hp, hFrad p hp]
    exact hb p hp

/-- C6 amended: with `dt = 0`, `Solver::update` leaves every position unchanged
after any number of sub-steps, provided the particles start at rest
(`position_old = position_current`), inside the wall rectangle, and pairwise
non-overlapping.  Without the rest assumption the claim fails: `dt` does not
scale the inherited Verlet velocity (see the counterexample). -/
theorem update_dt_zero_positions (s : Solver) (ps : List VerletObject) (density : ℕ)
    (hrest : Rest ps) (hb : InBounds s.width s.height ps) (hno : NoOverlap ps) :
    positions (s.update ps 0 density) = positions ps := by
  suffices main : ∀ n (qs : List VerletObject), Rest qs → InBounds s.width s.height qs →
      NoOverlap qs →
      positions ((List.range n).foldl (fun acc _ => s.substep acc 0 density) qs) =
          positions qs ∧
        Rest ((List.range n).foldl (fun acc _ => s.substep acc 0 density) qs) ∧
        InBounds s.width s.height
          ((List.range n).foldl (fun acc _ => s.substep acc 0 density) qs) ∧
        NoOverlap ((List.range n).foldl (fun acc _ => s.substep acc 0 density) qs) by
    exact (main s.substeps.toNat ps hrest hb hno).1
  intro n
  induction n with
  | zero =>
      intro qs h1 h2 h3
      exact ⟨rfl, h1, h2, h3⟩
  | succ n ih =>
      intro qs h1 h2 h3
      rw [List.range_succ, List.foldl_append, List.foldl_cons, List.foldl_nil]
      obtain ⟨e1, r1, b1, n1⟩ := ih qs h1 h2 h3
      obtain ⟨e2, r2, b2, n2⟩ := substep_dt_zero s _ density r1 b1 n1
      exact ⟨by rw [e2, e1], r2, b2, n2⟩

/-- C6 amended witness: one resting radius-5 particle at (50,50) in a 1000 by
1000 box keeps its position through 8 sub-steps at `dt = 0`. -/
theorem update_dt_zero_positions_witness :
    positions ((Solver.new (0, 1000) 1000 1000 8).update
        [⟨(50, 50), (50, 50), (0, 0), 5, (0, 0, 0)⟩] 0 10) =
      positions [⟨(50, 50), (50, 50), (0, 0), 5, (0, 0, 0)⟩] :=
  update_dt_zero_positions (Solver.new (0, 1000) 1000 1000 8)
    [⟨(50, 50), (50, 50), (0, 0), 5, (0, 0, 0)⟩] 10
    (by intro p hp; simp only [List.mem_singleton] at hp; subst hp; rfl)
    (by intro p hp; simp only [List.mem_singleton] at hp; subst hp; norm_num [Solver.new])
    (by intro i j hi hj hij; simp only [List.length_singleton] at hi hj; omega)

/-- C6 counterexample: with `dt = 0` a single moving particle still moves.  The
particle at (30,30) with previous position (20,30) carries Verlet velocity
(10,0); one sub-step at `dt = 0` advances it to (40,30), because `dt` only
scales the acceleration term, never the inherited velocity.  So `update` with
`dt = 0` does not leave positions unchanged in general. -/
theorem update_dt_zero_moves_particle :
    positions ((Solver.new (0, 0) 1000 1000 1).update
          [⟨(30, 30), (20, 30), (0, 0), 5, (0, 0, 0)⟩] 0 10) = [((40 : ℝ), (30 : ℝ))] ∧
      positions [⟨(30, 30), (20, 30), (0, 0), 5, (0, 0, 0)⟩] = [((30 : ℝ), (30 : ℝ))] ∧
      positions ((Solver.new (0, 0) 1000 1000 1).update
          [⟨(30, 30), (20, 30), (0, 0), 5, (0, 0, 0)⟩] 0 10) ≠
        positions [⟨(30, 30), (20, 30), (0, 0), 5, (0, 0, 0)⟩] := by
  have h1 : positions ((Solver.new (0, 0) 1000 1000 1).update
      [⟨(30, 30), (20, 30), (0, 0), 5, (0, 0, 0)⟩] 0 10) = [((40 : ℝ), (30 : ℝ))] := by
    norm_num [Solver.update, Solver.new, Solver.substep, Solver.update_positions,
      Solver.apply_gravity, Solver.apply_constraint, VerletObject.accelerate,
      VerletObject.update_position, find_colllisions, compute_spatial_map, cellOf, insertIdx,
      lookupCell, check_cells_collisions, constrainParticle, positions, List.range_succ,
      Prod.mk_add_mk, Prod.mk_sub_mk, Prod.smul_mk, Int.floor_ofNat, Int.floor_natCast,
      smul_eq_mul]
  have h2 : positions [(⟨(30, 30), (20, 30), (0, 0), 5, (0, 0, 0)⟩ : VerletObject)] =
      [((30 : ℝ), (30 : ℝ))] := by
    norm_num [positions]
  refine ⟨h1, h2, ?_⟩
  rw [h1, h2]
  simp only [ne_eq, List.cons.injEq, Prod.mk.injEq]
  norm_num
